import Mathlib

/-!
Verification development for the propertio upload scheduler.

The definitions below are a shallow embedding of the upload-scheduling code
of the repository:

* `UploadManager.*` embeds `src/lib/uploadManager.ts` (the `UploadManager`
  class): its constructor, `addToQueue`, `processQueue`, `uploadFile`'s
  simulated-progress loop, `updateConfig`, `clearQueue`.  JavaScript numbers
  used as counters/limits are modelled as `Int`/`Nat`; the `uuidv4` identifier
  supply is modelled as a fresh counter (uuids are assumed unique); the
  JavaScript `Set` is modelled as a duplicate-free insertion-ordered list.
  The asynchronous execution of `uploadFile` is modelled by an event
  semantics: a `submit` event runs `addToQueue`, and a `finish id ok` event
  runs the `.finally` continuation of `uploadFile` (slot release followed by
  `processQueue`), with `ok` recording whether `onComplete` or `onError`
  fired.
* `hookUploadManager.*` embeds the `useUploadManager` hook of
  `src/unnamed/part_008` (creation of upload statuses, the batch
  `processQueue` loop with its `activeUploadsSet`, `uploadSingleFile`'s status
  updates and progress interval, and `retryUpload`).  React `setUploads`
  updates are modelled as list maps over the tracked uploads.  Each
  asynchronous micro-action of the code is one event; `uploadFiles` is only
  fired when the previous batch loop has drained (the hook starts an
  independent loop per call; a single sequential batch plus retries is all
  the claims need).
* `viewHook.*` embeds the `useUploadManager` hook of
  `src/unnamed/part_007` (the variant delegating to the `uploadManager`
  singleton), in particular `clearUploads` and the completion/error
  callbacks.
* `apiRoute.*` embeds the image-filtering loop of the `POST` handler in
  `src/unnamed/part_001` and the dropzone filter of `src/unnamed/part_004`.
-/

namespace UploadManager

/-- A source file handle: the fields of the browser `File` object the code
reads (`name`, `type`, `size`). -/
structure FileInfo where
  name : String
  ftype : String
  size : Nat
deriving Repr, DecidableEq

/-- One entry of the `UploadManager` queue (`UploadTask` in
`uploadManager.ts`): id, file, propertyId.  The callbacks close over the
task id and are modelled by the event log of the state. -/
structure Task where
  id : Nat
  file : FileInfo
  propertyId : String
deriving Repr, DecidableEq

/-- `UploadManagerConfig`: both fields optional. -/
structure Config where
  maxConcurrent : Option Int := none
  baseLocation : Option String := none
deriving Repr, DecidableEq

/-- The environment variables the constructor reads; `none` models an unset
variable. -/
structure Env where
  bucketName : Option String := none
  accountId : Option String := none
  accessKeyId : Option String := none
  secretAccessKey : Option String := none
  region : Option String := none
  publicDomain : Option String := none
deriving Repr, DecidableEq

/-- JavaScript truthiness of an optional string (`undefined` and `""` are
falsy). -/
def truthy : Option String → Bool
  | none => false
  | some s => !(s == "")

/-- JavaScript `x || d` for an optional string environment variable. -/
def orDefault (o : Option String) (d : String) : String :=
  match o with
  | none => d
  | some s => if s == "" then d else s

/-- `Math.max(1, Math.min(10, v))` — the clamp applied to
`config.maxConcurrent` in the constructor and in `updateConfig`. -/
def clampConc (v : Int) : Int := max 1 (min 10 v)

/-- `baseLocation.replace(/^\/+|\/+$/g, '')`: strip leading and trailing
slashes. -/
def stripSlashes (s : String) : String :=
  let l := (s.toList.dropWhile (fun c => c = '/')).reverse
  String.mk (l.dropWhile (fun c => c = '/')).reverse

/-- Mutable state of an `UploadManager` instance. `queue` and `active`
mirror the `queue` array and the `activeUploads` set; `nextId` is the
fresh-uuid supply; `callbackLog` records which of `onComplete` (`true`) /
`onError` (`false`) fired for each settled task. -/
structure State where
  queue : List Task
  active : List Nat
  maxConcurrent : Int
  baseLocation : String
  bucketName : String
  region : String
  nextId : Nat
  callbackLog : List (Nat × Bool)
deriving Repr, DecidableEq

/-- Insertion into a JavaScript `Set` modelled as a list: append if absent. -/
def setAdd (s : List Nat) (x : Nat) : List Nat :=
  if x ∈ s then s else s ++ [x]

/-- The `maxConcurrent` the constructor ends up with: the clamp of the
supplied value, or the default 3. -/
def configMaxConc (config : Option Config) : Int :=
  match config with
  | some c => match c.maxConcurrent with
    | some v => clampConc v
    | none => 3
  | none => 3

/-- The `baseLocation` the constructor ends up with: the slash-stripped
supplied value, or the default `"portfolio"`. -/
def configBaseLoc (config : Option Config) : String :=
  match config with
  | some c => match c.baseLocation with
    | some b => stripSlashes b
    | none => "portfolio"
  | none => "portfolio"

/-- The `UploadManager` constructor: reads env vars, applies the config
(clamping `maxConcurrent` into 1–10, stripping slashes off `baseLocation`),
and throws exactly when the access key id or the secret access key is
missing/empty. -/
def create (env : Env) (config : Option Config) : Except String State :=
  if truthy env.accessKeyId && truthy env.secretAccessKey then
    .ok { queue := [], active := [],
          maxConcurrent := configMaxConc config
          baseLocation := configBaseLoc config
          bucketName := orDefault env.bucketName ""
          region := orDefault env.region "auto"
          nextId := 0, callbackLog := [] }
  else
    .error "Cloudflare R2 credentials not configured"

/-- `true` iff the constructor returns normally rather than throwing. -/
def createSucceeds (env : Env) (config : Option Config) : Bool :=
  match create env config with
  | .ok _ => true
  | .error _ => false

/-- `processQueue`: return early when the gate is full or the queue empty;
otherwise splice `maxConcurrent - activeUploads.size` tasks off the head of
the queue and add each to the active set (dispatching its transfer). -/
def processQueue (s : State) : State :=
  if s.maxConcurrent ≤ (s.active.length : Int) ∨ s.queue = [] then s
  else
    let avail := (s.maxConcurrent - (s.active.length : Int)).toNat
    { s with
      queue := s.queue.drop avail
      active := (s.queue.take avail).foldl (fun a t => setAdd a t.id) s.active }

/-- `addToQueue(files, propertyId, callbacks)`: one task per file (no
content-type check), ids from the uuid supply, tasks pushed to the queue
tail, then `processQueue`; returns the task ids. -/
def addToQueue (files : List FileInfo) (propertyId : String) (s : State) :
    List Nat × State :=
  let ids := List.range' s.nextId files.length
  let tasks := (files.zip ids).map
    (fun p => { id := p.2, file := p.1, propertyId := propertyId : Task })
  (ids, processQueue { s with
      queue := s.queue ++ tasks
      nextId := s.nextId + files.length })

/-- The tail of `uploadFile`: whichever of `onComplete`/`onError` fired, the
`.finally` continuation deletes the task from `activeUploads` and re-runs
`processQueue`.  `ok` records the outcome for the callback log; the slot
release does not depend on it. -/
def finishUpload (id : Nat) (ok : Bool) (s : State) : State :=
  processQueue { s with
    active := s.active.erase id
    callbackLog := s.callbackLog ++ [(id, ok)] }

/-- `updateConfig`: re-clamp `maxConcurrent`, re-strip `baseLocation`, each
only when supplied. -/
def updateConfig (config : Config) (s : State) : State :=
  let s1 := match config.maxConcurrent with
    | some v => { s with maxConcurrent := clampConc v }
    | none => s
  match config.baseLocation with
  | some b => { s1 with baseLocation := stripSlashes b }
  | none => s1

/-- `clearQueue`: empties the backlog; the active set is untouched. -/
def clearQueue (s : State) : State := { s with queue := [] }

/-- `removeFromQueue(taskId)`: drop the first queued task with that id,
reporting whether one was found. -/
def removeFromQueue (id : Nat) (s : State) : Bool × State :=
  if s.queue.any (fun t => t.id = id) then
    (true, { s with queue := s.queue.eraseP (fun t => t.id = id) })
  else
    (false, s)

/-- Scheduler-level events: a caller submits a batch, or an in-flight
transfer settles (successfully or not). -/
inductive Event
  | submit (files : List FileInfo) (propertyId : String)
  | finish (id : Nat) (ok : Bool)
deriving Repr, DecidableEq

/-- One event step.  A `finish` only fires for a task that is actually in
flight. -/
def step (s : State) (e : Event) : State :=
  match e with
  | .submit files pid => (addToQueue files pid s).2
  | .finish id ok => if id ∈ s.active then finishUpload id ok s else s

/-- Run a list of events. -/
def run (s : State) (es : List Event) : State := es.foldl step s

/-- The ids the manager currently tracks: queued plus in flight. -/
def trackedIds (s : State) : List Nat := s.queue.map (fun t => t.id) ++ s.active

/-- The simulated-progress loop of `uploadFile`: every 100 ms, if
`progress < 90`, add `Math.random() * 10` (a rational in `[0,10)`) and emit
the new value through `task.onProgress`.  `simTicks p ds` is the list of
emitted values for a run of ticks with draws `ds` starting from progress
`p`. -/
def simTicks (p : ℚ) : List ℚ → List ℚ
  | [] => []
  | d :: ds => if p < 90 then (p + d) :: simTicks (p + d) ds else simTicks p ds

/-- Emitted progress values of one successful `uploadFile` attempt: the tick
emissions for the draws that occur before `s3Client.send` resolves, then
`clearInterval` runs and `onProgress(100)` is emitted. -/
def uploadFileEmitsSuccess (draws : List ℚ) : List ℚ :=
  simTicks 0 draws ++ [100]

/-- Emitted progress values of one failed `uploadFile` attempt: the `catch`
block skips `clearInterval`, so after `onError` fires the interval keeps
running — the emissions are the ticks for the draws before the failure
(`pre`) followed by the ticks for draws after it (`post`), with no final
`100`. -/
def uploadFileEmitsFailure (pre post : List ℚ) : List ℚ :=
  simTicks 0 (pre ++ post)

/-- The emissions of a failed attempt that happen after the task has already
been reported failed (after `onError`): everything beyond the pre-failure
prefix. -/
def emissionsAfterFailure (pre post : List ℚ) : List ℚ :=
  (uploadFileEmitsFailure pre post).drop (simTicks 0 pre).length

end UploadManager

namespace hookUploadManager

open UploadManager (FileInfo setAdd truthy)

/-- Task lifecycle states of the hook's `UploadStatus`
(`queued | uploading | completed | error`). -/
inductive UStat
  | queued | uploading | completed | error
deriving Repr, DecidableEq

/-- The `UploadStatus` record of `src/unnamed/part_008`: tracked status of
one upload.  `hasFile`/`propertyId` model the optional `file` and
`propertyId` fields that the retry guard checks. -/
structure UploadStatus where
  id : Nat
  filename : String
  progress : Int
  status : UStat
  url : Option String := none
  err : Option String := none
  hasFile : Bool := true
  propertyId : Option String := none
deriving Repr, DecidableEq

/-- `maxConcurrentUploads` of the hook: fixed at 3. -/
def maxConcurrentUploads : Nat := 3

/-- State of the hook: the tracked `uploads` table, the running batch's
`fileQueue` and its `activeUploadsSet`, the ids added to sets created by
`retryUpload` calls, the ids whose `uploadSingleFile` call has been made but
whose first `setUploads` has not yet run (`pendingStart`), the ids whose
transfer API call is outstanding (`inFlight`), and the fresh-uuid supply. -/
structure HState where
  uploads : List UploadStatus
  fileQueue : List Nat
  activeSet : List Nat
  retryActive : List Nat
  pendingStart : List Nat
  inFlight : List Nat
  nextId : Nat
deriving Repr, DecidableEq

/-- The empty initial hook state. -/
def hInit : HState :=
  { uploads := [], fileQueue := [], activeSet := [], retryActive := [],
    pendingStart := [], inFlight := [], nextId := 0 }

/-- The `setUploads(prev => prev.map(u => u.id === id ? f u : u))` pattern:
update every tracked upload with the given id. -/
def updateUpload (id : Nat) (f : UploadStatus → UploadStatus)
    (l : List UploadStatus) : List UploadStatus :=
  l.map (fun u => if u.id = id then f u else u)

/-- `uploads.find(u => u.id === uploadId)`. -/
def findUpload (id : Nat) (l : List UploadStatus) : Option UploadStatus :=
  l.find? (fun u => u.id = id)

/-- The reset `retryUpload` applies to the named task:
`status = queued, progress = 0, error = undefined`. -/
def retryReset (u : UploadStatus) : UploadStatus :=
  { u with status := .queued, progress := 0, err := none }

/-- Asynchronous micro-events of the hook code. `uploadFiles` is the call
creating a batch; `admitOne` is one iteration of the batch loop's inner
`while` (shift the queue head into `activeUploadsSet`); `startUpload` is
`uploadSingleFile`'s first `setUploads` (status `uploading`, progress 10);
`tick` is one firing of the progress interval; `succeed`/`fail` are the
completion paths (each ending in the `finally` that deletes the id from its
set); `retryCall` is `retryUpload`. -/
inductive HEvent
  | uploadFiles (names : List String) (propertyId : String)
  | admitOne
  | startUpload (id : Nat)
  | tick (id : Nat)
  | succeed (id : Nat) (url : String)
  | fail (id : Nat) (msg : String)
  | retryCall (id : Nat)
deriving Repr, DecidableEq

/-- One micro-event step of the part_008 hook.

`uploadFiles` clears the tracked table (`setUploads([])`), creates one
`queued` status with progress 0 per file (ids are the files' uuids, modelled
by the fresh counter), and installs the batch queue; it is only fired once
the previous batch loop has drained (each call spawns an independent loop;
one sequential batch plus retries suffices for the claims).

`retryCall` is the exact guard of `retryUpload`: find the upload; return
unchanged unless its status is `error` and its `file` and `propertyId`
fields are truthy; otherwise reset it and start `uploadSingleFile` for it
with a freshly created active set containing only this id — the retried
transfer is not appended to any queue and is not gated by
`maxConcurrentUploads`. -/
def hstep (s : HState) (e : HEvent) : HState :=
  match e with
  | .uploadFiles names pid =>
    if s.fileQueue = [] ∧ s.activeSet = [] then
      let ids := List.range' s.nextId names.length
      { s with
        uploads := (names.zip ids).map (fun p =>
          { id := p.2
            filename := p.1
            progress := 0
            status := .queued
            hasFile := true
            propertyId := some pid })
        fileQueue := ids
        nextId := s.nextId + names.length }
    else s
  | .admitOne =>
    match s.fileQueue with
    | [] => s
    | q :: rest =>
      if s.activeSet.length < maxConcurrentUploads then
        { s with fileQueue := rest, activeSet := setAdd s.activeSet q,
                 pendingStart := setAdd s.pendingStart q }
      else s
  | .startUpload id =>
    if id ∈ s.pendingStart then
      { s with
        uploads := updateUpload id
          (fun u => { u with status := .uploading, progress := 10 }) s.uploads
        pendingStart := s.pendingStart.erase id
        inFlight := setAdd s.inFlight id }
    else s
  | .tick id =>
    { s with uploads := s.uploads.map (fun u =>
        if u.id = id ∧ u.status = .uploading then
          { u with progress := min (u.progress + 10) 90 }
        else u) }
  | .succeed id url =>
    if id ∈ s.inFlight then
      { s with
        uploads := updateUpload id
          (fun u => { u with
            progress := 100
            status := .completed
            url := some url }) s.uploads
        inFlight := s.inFlight.erase id
        activeSet := s.activeSet.erase id
        retryActive := s.retryActive.erase id }
    else s
  | .fail id msg =>
    if id ∈ s.inFlight then
      { s with
        uploads := updateUpload id
          (fun u => { u with status := .error, err := some msg }) s.uploads
        inFlight := s.inFlight.erase id
        activeSet := s.activeSet.erase id
        retryActive := s.retryActive.erase id }
    else s
  | .retryCall id =>
    match findUpload id s.uploads with
    | none => s
    | some u =>
      if u.status = .error ∧ u.hasFile = true ∧ truthy u.propertyId then
        { s with
          uploads := updateUpload id retryReset s.uploads
          retryActive := setAdd s.retryActive id
          pendingStart := setAdd s.pendingStart id }
      else s

/-- Run a list of hook events from a state. -/
def hrun (s : HState) (es : List HEvent) : HState := es.foldl hstep s

/-- Number of tracked uploads currently in the `uploading` state. -/
def uploadingCount (s : HState) : Nat :=
  s.uploads.countP (fun u => u.status = .uploading)

/-- The per-upload progress/status discipline of the hook's tracked table:
progress is an integer percentage in `[0,100]`, 0 while `queued`, 100 when
`completed`, and between the initial 10 and the cap 90 while `uploading`. -/
def goodUpload (u : UploadStatus) : Prop :=
  0 ≤ u.progress ∧ u.progress ≤ 100 ∧
  (u.status = .queued → u.progress = 0) ∧
  (u.status = .completed → u.progress = 100) ∧
  (u.status = .uploading → 10 ≤ u.progress ∧ u.progress ≤ 90)

instance (u : UploadStatus) : Decidable (goodUpload u) := by
  unfold goodUpload; infer_instance

/-- Well-formedness of a hook state: progress discipline of every tracked
upload, phase discipline of the bookkeeping sets (queued ids are `queued`,
in-flight ids are `uploading`, pending-start ids are `queued`), pairwise
disjointness of the phases, and freshness of the uuid supply. -/
structure WF (s : HState) : Prop where
  good : ∀ u ∈ s.uploads, goodUpload u
  pendingQueued : ∀ id ∈ s.pendingStart, ∀ u, findUpload id s.uploads = some u →
    u.status = .queued
  queueQueued : ∀ id ∈ s.fileQueue, ∀ u, findUpload id s.uploads = some u →
    u.status = .queued
  flightUploading : ∀ id ∈ s.inFlight, ∀ u, findUpload id s.uploads = some u →
    u.status = .uploading
  pendFlight : ∀ id ∈ s.pendingStart, id ∉ s.inFlight
  queueFlight : ∀ id ∈ s.fileQueue, id ∉ s.inFlight
  queuePend : ∀ id ∈ s.fileQueue, id ∉ s.pendingStart
  queueNodup : s.fileQueue.Nodup
  pendNodup : s.pendingStart.Nodup
  flightNodup : s.inFlight.Nodup
  fresh : ∀ id, (id ∈ s.fileQueue ∨ id ∈ s.pendingStart ∨ id ∈ s.inFlight ∨
    (∃ u ∈ s.uploads, u.id = id)) → id < s.nextId

/-- A trace of the part_008 hook exhibiting four simultaneous `uploading`
tasks under the fixed limit of 3: three batch tasks in flight plus a retried
task started outside the gate. -/
def c1Trace : List HEvent :=
  [.uploadFiles ["a", "b", "c", "d"] "p", .admitOne, .admitOne, .admitOne,
   .startUpload 0, .startUpload 1, .startUpload 2, .fail 0 "boom", .admitOne,
   .startUpload 3, .retryCall 0, .startUpload 0]

/-- A trace of the part_008 hook in which a retried task starts uploading
while two earlier-queued tasks are still waiting in the file queue. -/
def c3Trace : List HEvent :=
  [.uploadFiles ["a", "b", "c", "d", "e"] "p", .admitOne, .admitOne, .admitOne,
   .startUpload 0, .startUpload 1, .startUpload 2, .fail 0 "boom",
   .retryCall 0, .startUpload 0]

/-- A small trace reaching a state with one task in the `uploading` state. -/
def es7 : List HEvent := [.uploadFiles ["a"] "p", .admitOne, .startUpload 0]

/-- The tracked upload of `es7` before a tick. -/
def u7a : UploadStatus :=
  { id := 0, filename := "a", progress := 10, status := .uploading,
    hasFile := true, propertyId := some "p" }

/-- The tracked upload of `es7` after a tick. -/
def u7b : UploadStatus :=
  { id := 0, filename := "a", progress := 20, status := .uploading,
    hasFile := true, propertyId := some "p" }

/-- The failed upload tracked in `hsRetry`. -/
def u0e : UploadStatus :=
  { id := 0, filename := "a", progress := 60, status := .error,
    err := some "boom", hasFile := true, propertyId := some "p" }

/-- The completed upload tracked in `hsRetry`. -/
def u2c : UploadStatus :=
  { id := 2, filename := "c", progress := 100, status := .completed,
    url := some "https://cdn.example/p/x.png", hasFile := true,
    propertyId := some "p" }

/-- A hook state holding one failed upload, one queued upload, and one
completed upload, used to instantiate the retry contract. -/
def hsRetry : HState :=
  { uploads :=
      [{ id := 0, filename := "a", progress := 60, status := .error,
         err := some "boom", hasFile := true, propertyId := some "p" },
       { id := 1, filename := "b", progress := 0, status := .queued,
         hasFile := true, propertyId := some "p" },
       { id := 2, filename := "c", progress := 100, status := .completed,
         url := some "https://cdn.example/p/x.png", hasFile := true,
         propertyId := some "p" }]
    fileQueue := [1]
    activeSet := []
    retryActive := []
    pendingStart := []
    inFlight := []
    nextId := 3 }

end hookUploadManager

namespace viewHook

open hookUploadManager (UStat)

/-- The `UploadStatus` record of `src/unnamed/part_007` (no stored file or
property id — this variant delegates the transfer to the `uploadManager`
singleton). -/
structure ViewUpload where
  id : Nat
  filename : String
  progress : Int
  status : UStat
  url : Option String := none
  err : Option String := none
deriving Repr, DecidableEq

/-- Combined state of the part_007 hook and the `uploadManager` singleton it
drives: the tracked `uploads` table, the manager state, and the
`isUploading` flag. -/
structure AppState where
  uploads : List ViewUpload
  mgr : UploadManager.State
  isUploading : Bool
deriving Repr, DecidableEq

/-- The `setUploads` map pattern of part_007. -/
def updateView (id : Nat) (f : ViewUpload → ViewUpload)
    (l : List ViewUpload) : List ViewUpload :=
  l.map (fun u => if u.id = id then f u else u)

/-- The `onComplete(taskId, url)` callback of part_007: mark the matching
tracked upload completed with progress 100 and the locator. -/
def onCompleteUpdate (id : Nat) (url : String) (s : AppState) : AppState :=
  { s with uploads := updateView id (fun u => { u with
      progress := 100
      status := .completed
      url := some url }) s.uploads }

/-- The `onError(taskId, error)` callback of part_007: mark the matching
tracked upload failed with the message. -/
def onErrorUpdate (id : Nat) (msg : String) (s : AppState) : AppState :=
  { s with uploads := updateView id (fun u => { u with
      status := .error
      err := some msg }) s.uploads }

/-- `clearUploads` of part_007: `setUploads([])`, then the manager's
`clearQueue()` (which empties only the backlog), then
`setIsUploading(false)`.  The manager's active set — the in-flight
transfers — is not touched. -/
def clearUploads (s : AppState) : AppState :=
  { uploads := []
    mgr := UploadManager.clearQueue s.mgr
    isUploading := false }

end viewHook

namespace apiRoute

open UploadManager (FileInfo)

/-- The admission predicate of the POST handler's loop
(`image.type.startsWith('image/')`), expressed as a prefix test on the
character sequences. -/
def isImageType (t : String) : Bool :=
  "image/".toList.isPrefixOf t.toList

/-- Substring occurrence over character lists. -/
def containsSubAux (sub : List Char) : List Char → Bool
  | [] => sub.isEmpty
  | c :: rest => sub.isPrefixOf (c :: rest) || containsSubAux sub rest

/-- Substring test (JavaScript `String.prototype.includes`). -/
def containsSub (s sub : String) : Bool :=
  containsSubAux sub.toList s.toList

/-- `uploadImage`'s extension mapping from the blob's content type. -/
def extensionFor (t : String) : String :=
  if containsSub t "jpeg" || containsSub t "jpg" then "jpg"
  else if containsSub t "webp" then "webp"
  else if containsSub t "gif" then "gif"
  else "png"

/-- The public locator `uploadImage` returns:
`https://<domain>/<propertyId>/<fileName>.<ext>`. -/
def uploadImageUrl (domain pid fileName t : String) : String :=
  "https://" ++ domain ++ "/" ++ pid ++ "/" ++ fileName ++ "." ++ extensionFor t

/-- The per-image loop of the POST handler in `src/unnamed/part_001`: each
file is paired with the uuid filename generated for it; a file whose
declared type does not start with `image/` is skipped silently (`continue`)
— no task, no upload, no error for it; every admitted file (on the success
path of its try/catch) contributes its locator. -/
def postLoop (domain pid : String) : List (FileInfo × String) → List String
  | [] => []
  | (f, nm) :: rest =>
    if !isImageType f.ftype then postLoop domain pid rest
    else uploadImageUrl domain pid nm f.ftype :: postLoop domain pid rest

/-- `handleDropZoneDrop` of `src/unnamed/part_004`: append to the selected
files only the dropped files whose type starts with `image/` and whose size
is at most 10 MiB. -/
def handleDropZoneDrop (dropFiles existing : List FileInfo) : List FileInfo :=
  existing ++ dropFiles.filter
    (fun f => isImageType f.ftype && decide (f.size ≤ 10 * 1024 * 1024))

end apiRoute

namespace viewHook

open hookUploadManager (UStat) in
/-- A concrete app state: one tracked completed upload, one queued task in
the manager backlog, one in-flight transfer. -/
def appSt : AppState :=
  { uploads := [{ id := 5, filename := "a", progress := 100, status := UStat.completed }]
    mgr := { queue := [{ id := 7
                         file := { name := "b", ftype := "image/png", size := 1 }
                         propertyId := "p" }]
             active := [6]
             maxConcurrent := 3
             baseLocation := "portfolio"
             bucketName := "propertio"
             region := "auto"
             nextId := 8
             callbackLog := [] }
    isUploading := true }

end viewHook

namespace UploadManager

/-- A fully configured environment used for concrete instantiations. -/
def envOK : Env :=
  { bucketName := some "propertio"
    accountId := some "acct"
    accessKeyId := some "AK"
    secretAccessKey := some "SK"
    region := some "auto"
    publicDomain := some "cdn.example" }

/-- The state `create envOK none` produces. -/
def s0ok : State :=
  { queue := [], active := [], maxConcurrent := 3, baseLocation := "portfolio",
    bucketName := "propertio", region := "auto", nextId := 0, callbackLog := [] }

/-- An environment with valid credentials but no bucket name configured. -/
def envNoBucket : Env :=
  { accountId := some "acct"
    accessKeyId := some "AK"
    secretAccessKey := some "SK"
    region := some "auto"
    publicDomain := some "cdn.example" }

/-- The state `create envNoBucket none` produces: the bucket name silently
defaults to the empty string. -/
def s9NoBucket : State :=
  { queue := [], active := [], maxConcurrent := 3, baseLocation := "portfolio",
    bucketName := "", region := "auto", nextId := 0, callbackLog := [] }

/-- A file whose declared content type is not an image classification. -/
def badFile : FileInfo := { name := "notes.txt", ftype := "text/plain", size := 10 }

/-- An image file named `n`. -/
def mkImg (n : String) : FileInfo := { name := n, ftype := "image/png", size := 1 }

/-- Submit four image files as one batch. -/
def tr4 : List Event := [.submit [mkImg "a", mkImg "b", mkImg "c", mkImg "d"] "p"]

/-- Submit one image file. -/
def tr1 : List Event := [.submit [mkImg "a"] "p"]

/-- The fourth task of `tr4`, left queued behind the full gate. -/
def task3 : Task := { id := 3, file := mkImg "d", propertyId := "p" }

theorem setAdd_length_le (s : List Nat) (x : Nat) :
    (setAdd s x).length ≤ s.length + 1 := by
  unfold setAdd; split <;> simp

theorem mem_setAdd_iff {y : Nat} (s : List Nat) (x : Nat) :
    y ∈ setAdd s x ↔ y ∈ s ∨ y = x := by
  unfold setAdd
  split
  · rename_i hx
    simp only [iff_self_or]
    rintro rfl; exact hx
  · simp

theorem setAdd_nodup {s : List Nat} (h : s.Nodup) (x : Nat) :
    (setAdd s x).Nodup := by
  unfold setAdd; split
  · exact h
  · simp_all [List.nodup_append]

theorem foldl_setAdd_length_le (l : List Task) (a : List Nat) :
    (l.foldl (fun a t => setAdd a t.id) a).length ≤ a.length + l.length := by
  induction l generalizing a with
  | nil => simp
  | cons t ts ih =>
    calc (List.foldl (fun a t => setAdd a t.id) (setAdd a t.id) ts).length
        ≤ (setAdd a t.id).length + ts.length := ih _
      _ ≤ a.length + 1 + ts.length := by
          have := setAdd_length_le a t.id; omega
      _ = a.length + (ts.length + 1) := by omega

theorem mem_foldl_setAdd_iff (l : List Task) (a : List Nat) (x : Nat) :
    x ∈ l.foldl (fun a t => setAdd a t.id) a ↔ x ∈ a ∨ ∃ t ∈ l, t.id = x := by
  induction l generalizing a with
  | nil => simp
  | cons t ts ih =>
    simp only [List.foldl_cons, ih, mem_setAdd_iff, List.mem_cons]
    constructor
    · rintro ((h | h) | ⟨u, hu, rfl⟩)
      · exact .inl h
      · exact .inr ⟨t, .inl rfl, h.symm⟩
      · exact .inr ⟨u, .inr hu, rfl⟩
    · rintro (h | ⟨u, (rfl | hu), rfl⟩)
      · exact .inl (.inl h)
      · exact .inl (.inr rfl)
      · exact .inr ⟨u, hu, rfl⟩

theorem foldl_setAdd_nodup (l : List Task) {a : List Nat} (h : a.Nodup) :
    (l.foldl (fun a t => setAdd a t.id) a).Nodup := by
  induction l generalizing a with
  | nil => exact h
  | cons t ts ih => exact ih (setAdd_nodup h t.id)

theorem processQueue_maxConcurrent (s : State) :
    (processQueue s).maxConcurrent = s.maxConcurrent := by
  unfold processQueue; split <;> rfl

theorem processQueue_of_queue_nil {s : State} (h : s.queue = []) :
    processQueue s = s := by
  unfold processQueue
  rw [if_pos (.inr h)]

theorem processQueue_active_le {s : State}
    (h : (s.active.length : Int) ≤ s.maxConcurrent) :
    ((processQueue s).active.length : Int) ≤ (processQueue s).maxConcurrent := by
  rw [processQueue_maxConcurrent]
  unfold processQueue
  split
  · exact h
  · rename_i hg
    push_neg at hg
    obtain ⟨hlt, -⟩ := hg
    simp only []
    have h1 := foldl_setAdd_length_le
      (s.queue.take (s.maxConcurrent - (s.active.length : Int)).toNat) s.active
    have h2 : (s.queue.take (s.maxConcurrent - (s.active.length : Int)).toNat).length
        ≤ (s.maxConcurrent - (s.active.length : Int)).toNat := by
      simp [List.length_take]
    omega

theorem processQueue_active_nodup {s : State} (h : s.active.Nodup) :
    (processQueue s).active.Nodup := by
  unfold processQueue
  split
  · exact h
  · exact foldl_setAdd_nodup _ h

theorem step_maxConcurrent (s : State) (e : Event) :
    (step s e).maxConcurrent = s.maxConcurrent := by
  cases e with
  | submit files pid =>
    simp only [step, addToQueue]
    rw [processQueue_maxConcurrent]
  | finish id ok =>
    simp only [step]
    split
    · simp only [finishUpload]; rw [processQueue_maxConcurrent]
    · rfl

theorem run_maxConcurrent (s : State) (es : List Event) :
    (run s es).maxConcurrent = s.maxConcurrent := by
  induction es generalizing s with
  | nil => rfl
  | cons e es ih =>
    show (run (step s e) es).maxConcurrent = _
    rw [ih, step_maxConcurrent]

theorem step_active_le {s : State} (e : Event)
    (h : (s.active.length : Int) ≤ s.maxConcurrent) :
    ((step s e).active.length : Int) ≤ (step s e).maxConcurrent := by
  cases e with
  | submit files pid => exact processQueue_active_le h
  | finish id ok =>
    simp only [step]
    split
    · refine processQueue_active_le ?_
      simp only []
      have := List.length_erase_le id s.active
      omega
    · exact h

theorem run_active_le {s : State} (es : List Event)
    (h : (s.active.length : Int) ≤ s.maxConcurrent) :
    ((run s es).active.length : Int) ≤ (run s es).maxConcurrent := by
  induction es generalizing s with
  | nil => exact h
  | cons e es ih => exact ih (step_active_le e h)

theorem step_active_nodup {s : State} (e : Event) (h : s.active.Nodup) :
    (step s e).active.Nodup := by
  cases e with
  | submit files pid => exact processQueue_active_nodup h
  | finish id ok =>
    simp only [step]
    split
    · exact processQueue_active_nodup (h.erase id)
    · exact h

theorem run_active_nodup {s : State} (es : List Event) (h : s.active.Nodup) :
    (run s es).active.Nodup := by
  induction es generalizing s with
  | nil => exact h
  | cons e es ih => exact ih (step_active_nodup e h)

theorem configMaxConc_bounds (config : Option Config) :
    1 ≤ configMaxConc config ∧ configMaxConc config ≤ 10 := by
  unfold configMaxConc
  split
  · split
    · unfold clampConc; omega
    · omega
  · omega

theorem create_ok_inv {env : Env} {config : Option Config} {s : State}
    (h : create env config = .ok s) :
    s.active = [] ∧ s.queue = [] ∧ s.maxConcurrent = configMaxConc config := by
  unfold create at h
  split at h
  · injection h with h
    subst h
    exact ⟨rfl, rfl, rfl⟩
  · exact absurd h (by simp)

theorem finishAll_aux (ok : Bool) (l : List Nat) :
    ∀ s : State, s.queue = [] → s.active = l → l.Nodup →
    (run s (l.map (fun id => Event.finish id ok))).active = [] := by
  induction l with
  | nil =>
    intro s _ ha _
    simpa [run] using ha
  | cons x xs ih =>
    intro s hq ha hnd
    have hx : x ∈ s.active := by rw [ha]; exact List.mem_cons_self x xs
    show (run (step s (.finish x ok)) (xs.map fun id => Event.finish id ok)).active = []
    have hstep : step s (.finish x ok) =
        processQueue { s with
          active := s.active.erase x
          callbackLog := s.callbackLog ++ [(x, ok)] } := by
      simp [step, hx, finishUpload]
    have hpq : processQueue { s with
        active := s.active.erase x
        callbackLog := s.callbackLog ++ [(x, ok)] } =
        { s with
          active := s.active.erase x
          callbackLog := s.callbackLog ++ [(x, ok)] } :=
      processQueue_of_queue_nil hq
    rw [hstep, hpq]
    refine ih _ hq ?_ hnd.of_cons
    show s.active.erase x = xs
    rw [ha, List.erase_cons_head]

/-- Once the queue is empty, settling every in-flight transfer (each via
the `.finally` release) returns the active set — hence the active count —
to empty. -/
theorem finishAll_active_nil {s : State} (ok : Bool) (hq : s.queue = [])
    (hnd : s.active.Nodup) :
    (run s (s.active.map (fun id => Event.finish id ok))).active = [] :=
  finishAll_aux ok s.active s hq rfl hnd

theorem processQueue_admits_head {s : State} {t : Task} {rest : List Task}
    (hq : s.queue = t :: rest)
    (hlt : (s.active.length : Int) < s.maxConcurrent) :
    t.id ∈ (processQueue s).active := by
  have hguard : ¬ (s.maxConcurrent ≤ (s.active.length : Int) ∨ s.queue = []) := by
    push_neg
    exact ⟨by omega, by rw [hq]; exact List.cons_ne_nil t rest⟩
  unfold processQueue
  rw [if_neg hguard]
  simp only []
  rw [mem_foldl_setAdd_iff]
  refine .inr ⟨t, ?_, rfl⟩
  rw [hq]
  obtain ⟨n, hn⟩ : ∃ n, (s.maxConcurrent - (s.active.length : Int)).toNat = n + 1 :=
    ⟨(s.maxConcurrent - (s.active.length : Int)).toNat - 1, by omega⟩
  rw [hn]
  simp [List.take_succ_cons]

/-- Settling any in-flight transfer while the gate is full admits the head
of the queue: a failed task never blocks subsequent admissions. -/
theorem finish_admits_head {s : State} {id : Nat} (ok : Bool) {t : Task}
    {rest : List Task} (hq : s.queue = t :: rest) (hm : id ∈ s.active)
    (hle : (s.active.length : Int) ≤ s.maxConcurrent) :
    t.id ∈ (step s (.finish id ok)).active := by
  simp only [step, if_pos hm, finishUpload]
  apply processQueue_admits_head
  · exact hq
  · show ((s.active.erase id).length : Int) < s.maxConcurrent
    have h1 : (s.active.erase id).length + 1 = s.active.length :=
      List.length_erase_add_one hm
    omega

theorem mem_trackedIds_processQueue (s : State) (x : Nat) :
    x ∈ trackedIds (processQueue s) ↔ x ∈ trackedIds s := by
  unfold processQueue
  split
  · rfl
  · simp only [trackedIds, List.mem_append, List.mem_map, mem_foldl_setAdd_iff]
    constructor
    · rintro (⟨t, ht, rfl⟩ | h | ⟨t, ht, rfl⟩)
      · exact .inl ⟨t, List.mem_of_mem_drop ht, rfl⟩
      · exact .inr h
      · exact .inl ⟨t, List.mem_of_mem_take ht, rfl⟩
    · rintro (⟨t, ht, rfl⟩ | h)
      · rw [← List.take_append_drop
          ((s.maxConcurrent - (s.active.length : Int)).toNat) s.queue] at ht
        rcases List.mem_append.1 ht with h1 | h1
        · exact .inr (.inr ⟨t, h1, rfl⟩)
        · exact .inl ⟨t, h1, rfl⟩
      · exact .inr (.inl h)

theorem map_snd_zip_of_length {α β : Type} (l1 : List α) (l2 : List β)
    (h : l2.length ≤ l1.length) : (l1.zip l2).map Prod.snd = l2 := by
  induction l2 generalizing l1 with
  | nil => simp
  | cons b bs ih =>
    cases l1 with
    | nil => simp at h
    | cons a as =>
      simp only [List.zip_cons_cons, List.map_cons]
      rw [ih as (by simpa using Nat.le_of_succ_le_succ h)]

theorem mem_trackedIds_addToQueue (files : List FileInfo) (pid : String)
    (s : State) (x : Nat) :
    x ∈ trackedIds (addToQueue files pid s).2 ↔
      x ∈ trackedIds s ∨ x ∈ (addToQueue files pid s).1 := by
  unfold addToQueue
  simp only []
  rw [mem_trackedIds_processQueue]
  have hmap : ((files.zip (List.range' s.nextId files.length)).map
      (fun p => ({ id := p.2, file := p.1, propertyId := pid } : Task))).map
        (fun t => t.id) = List.range' s.nextId files.length := by
    rw [List.map_map]
    exact map_snd_zip_of_length files _ (by simp)
  simp only [trackedIds, List.mem_append, List.map_append, hmap]
  tauto

end UploadManager

namespace hookUploadManager

open UploadManager (mem_setAdd_iff)

theorem findUpload_map {g : UploadStatus → UploadStatus}
    (hg : ∀ u, (g u).id = u.id) (id : Nat) (l : List UploadStatus) :
    findUpload id (l.map g) = (findUpload id l).map g := by
  induction l with
  | nil => rfl
  | cons u us ih =>
    by_cases h : u.id = id
    · have hgid : (g u).id = id := by rw [hg u, h]
      simp [findUpload, List.find?_cons_of_pos, h, hgid]
    · have hgid : ¬ ((g u).id = id) := by rw [hg u]; exact h
      simp only [List.map_cons, findUpload] at *
      rw [List.find?_cons_of_neg _ (by simpa using hgid),
          List.find?_cons_of_neg _ (by simpa using h)]
      exact ih

theorem updateUpload_eq_map (id : Nat) (f : UploadStatus → UploadStatus)
    (l : List UploadStatus) :
    updateUpload id f l = l.map (fun u => if u.id = id then f u else u) := rfl

theorem findUpload_updateUpload_self {f : UploadStatus → UploadStatus}
    (hf : ∀ u, (f u).id = u.id) (id : Nat) (l : List UploadStatus) :
    findUpload id (updateUpload id f l) = (findUpload id l).map
      (fun u => if u.id = id then f u else u) := by
  rw [updateUpload_eq_map]
  refine findUpload_map ?_ id l
  intro u
  split
  · exact hf u
  · rfl

theorem forall_mem_updateUpload {P : UploadStatus → Prop} {id : Nat}
    {f : UploadStatus → UploadStatus} {l : List UploadStatus}
    (h1 : ∀ u ∈ l, P u) (h2 : ∀ u ∈ l, u.id = id → P (f u)) :
    ∀ u ∈ updateUpload id f l, P u := by
  intro u' hu'
  rw [updateUpload_eq_map] at hu'
  obtain ⟨u, hu, hEq⟩ := List.mem_map.1 hu'
  subst hEq
  split
  · exact h2 u hu ‹_›
  · exact h1 u hu

theorem wf_hInit : WF hInit := by
  constructor <;> simp [hInit]

theorem findUpload_eq_some {id : Nat} {u : UploadStatus} {l : List UploadStatus}
    (h : findUpload id l = some u) : u ∈ l ∧ u.id = id := by
  refine ⟨List.mem_of_find?_eq_some h, ?_⟩
  have := List.find?_some h
  simpa using this

theorem findUpload_eq_none {id : Nat} {l : List UploadStatus}
    (h : ∀ u ∈ l, u.id ≠ id) : findUpload id l = none := by
  refine List.find?_eq_none.2 ?_
  intro u hu
  simpa using h u hu

theorem findUpload_updateUpload_ne {f : UploadStatus → UploadStatus}
    (hf : ∀ u, (f u).id = u.id) {id id2 : Nat} (hne : id2 ≠ id)
    (l : List UploadStatus) :
    findUpload id2 (updateUpload id f l) = findUpload id2 l := by
  rw [updateUpload_eq_map,
      findUpload_map (g := fun u => if u.id = id then f u else u)
        (by intro u; by_cases h : u.id = id <;> simp [h, hf u]) id2 l]
  cases hfind : findUpload id2 l with
  | none => rfl
  | some u =>
    have hu := findUpload_eq_some hfind
    have : ¬ (u.id = id) := by rw [hu.2]; exact hne
    simp [this]

theorem exists_id_map {g : UploadStatus → UploadStatus}
    (hg : ∀ u, (g u).id = u.id) {l : List UploadStatus} {x : Nat} :
    (∃ u ∈ l.map g, u.id = x) ↔ ∃ u ∈ l, u.id = x := by
  constructor
  · rintro ⟨u, hu, rfl⟩
    obtain ⟨v, hv, rfl⟩ := List.mem_map.1 hu
    exact ⟨v, hv, (hg v).symm⟩
  · rintro ⟨u, hu, rfl⟩
    exact ⟨g u, List.mem_map_of_mem g hu, hg u⟩

theorem wf_uploadFiles {s : HState} (hwf : WF s) (names : List String)
    (pid : String) : WF (hstep s (.uploadFiles names pid)) := by
  simp only [hstep]
  split
  · rename_i hguard
    set U : List UploadStatus := (names.zip (List.range' s.nextId names.length)).map
      (fun p => { id := p.2
                  filename := p.1
                  progress := 0
                  status := .queued
                  hasFile := true
                  propertyId := some pid }) with hU
    have hA : ∀ u ∈ U, u.status = .queued ∧ u.progress = 0 ∧
        s.nextId ≤ u.id ∧ u.id < s.nextId + names.length := by
      intro u hu
      obtain ⟨p, hp, rfl⟩ := List.mem_map.1 hu
      have hp2 : p.2 ∈ List.range' s.nextId names.length := by
        obtain ⟨a, b, hab⟩ : ∃ a b, p = (a, b) := ⟨p.1, p.2, rfl⟩
        subst hab
        exact (List.of_mem_zip hp).2
      have := List.mem_range'_1.1 hp2
      exact ⟨rfl, rfl, this.1, this.2⟩
    have hnone : ∀ id2, id2 < s.nextId → findUpload id2 U = none := by
      intro id2 hid2
      refine findUpload_eq_none ?_
      intro u hu
      have := (hA u hu).2.2.1
      omega
    refine ⟨?_, ?_, ?_, ?_, ?_, ?_, ?_, ?_, ?_, ?_, ?_⟩
    · -- good
      intro u hu
      obtain ⟨h1, h2, -⟩ := hA u hu
      simp [goodUpload, h1, h2]
    · -- pendingQueued: stale ids find nothing in the fresh table
      intro id2 hid2 u hu
      have : id2 < s.nextId := hwf.fresh id2 (.inr (.inl hid2))
      rw [hnone id2 this] at hu
      cases hu
    · -- queueQueued: every new upload is queued
      intro id2 _ u hu
      exact (hA u (findUpload_eq_some hu).1).1
    · -- flightUploading: stale ids find nothing
      intro id2 hid2 u hu
      have : id2 < s.nextId := hwf.fresh id2 (.inr (.inr (.inl hid2)))
      rw [hnone id2 this] at hu
      cases hu
    · exact hwf.pendFlight
    · -- queueFlight: fresh queue ids are not stale in-flight ids
      intro id2 hid2 hflight
      have h1 := List.mem_range'_1.1 hid2
      have h2 : id2 < s.nextId := hwf.fresh id2 (.inr (.inr (.inl hflight)))
      omega
    · -- queuePend
      intro id2 hid2 hpend
      have h1 := List.mem_range'_1.1 hid2
      have h2 : id2 < s.nextId := hwf.fresh id2 (.inr (.inl hpend))
      omega
    · show (List.range' s.nextId names.length).Nodup
      exact List.nodup_range' _ _
    · exact hwf.pendNodup
    · exact hwf.flightNodup
    · -- fresh
      intro id2 hid2
      show id2 < s.nextId + names.length
      rcases hid2 with h | h | h | ⟨u, hu, rfl⟩
      · have := List.mem_range'_1.1 h; omega
      · have := hwf.fresh id2 (.inr (.inl h)); omega
      · have := hwf.fresh id2 (.inr (.inr (.inl h))); omega
      · exact (hA u hu).2.2.2
  · exact hwf

theorem wf_admitOne {s : HState} (hwf : WF s) : WF (hstep s .admitOne) := by
  simp only [hstep]
  split
  · exact hwf
  · rename_i q rest hq
    have hqmem : q ∈ s.fileQueue := by rw [hq]; exact List.mem_cons_self q rest
    have hrest : ∀ x ∈ rest, x ∈ s.fileQueue := by
      intro x hx; rw [hq]; exact List.mem_cons_of_mem q hx
    have hrestNodup : rest.Nodup ∧ q ∉ rest := by
      have := hwf.queueNodup
      rw [hq, List.nodup_cons] at this
      exact ⟨this.2, this.1⟩
    split
    · refine ⟨hwf.good, ?_, ?_, hwf.flightUploading, ?_, ?_, ?_,
        hrestNodup.1, ?_, hwf.flightNodup, ?_⟩
      · -- pendingQueued
        intro id2 hid2 u hu
        rcases (mem_setAdd_iff s.pendingStart q).1 hid2 with h | rfl
        · exact hwf.pendingQueued id2 h u hu
        · exact hwf.queueQueued id2 hqmem u hu
      · -- queueQueued
        intro id2 hid2 u hu
        exact hwf.queueQueued id2 (hrest id2 hid2) u hu
      · -- pendFlight
        intro id2 hid2
        rcases (mem_setAdd_iff s.pendingStart q).1 hid2 with h | rfl
        · exact hwf.pendFlight id2 h
        · exact hwf.queueFlight id2 hqmem
      · -- queueFlight
        intro id2 hid2
        exact hwf.queueFlight id2 (hrest id2 hid2)
      · -- queuePend
        intro id2 hid2 hpend
        rcases (mem_setAdd_iff s.pendingStart q).1 hpend with h | rfl
        · exact hwf.queuePend id2 (hrest id2 hid2) h
        · exact hrestNodup.2 hid2
      · -- pendNodup
        exact UploadManager.setAdd_nodup hwf.pendNodup q
      · -- fresh
        intro id2 hid2
        rcases hid2 with h | h | h | h
        · exact hwf.fresh id2 (.inl (hrest id2 h))
        · rcases (mem_setAdd_iff s.pendingStart q).1 h with h2 | rfl
          · exact hwf.fresh id2 (.inr (.inl h2))
          · exact hwf.fresh id2 (.inl hqmem)
        · exact hwf.fresh id2 (.inr (.inr (.inl h)))
        · exact hwf.fresh id2 (.inr (.inr (.inr h)))
    · exact hwf

theorem wf_startUpload {s : HState} (hwf : WF s) (id : Nat) :
    WF (hstep s (.startUpload id)) := by
  simp only [hstep]
  split
  · rename_i hid
    set f : UploadStatus → UploadStatus :=
      fun u => { u with status := .uploading, progress := 10 } with hfdef
    have hf : ∀ u, (f u).id = u.id := fun u => rfl
    have hfind_ne : ∀ id2, id2 ≠ id →
        findUpload id2 (updateUpload id f s.uploads) = findUpload id2 s.uploads :=
      fun id2 h => findUpload_updateUpload_ne hf h s.uploads
    have hfind_self : ∀ u', findUpload id (updateUpload id f s.uploads) = some u' →
        u'.status = .uploading := by
      intro u' h
      rw [findUpload_updateUpload_self hf] at h
      cases hfind : findUpload id s.uploads with
      | none => rw [hfind] at h; cases h
      | some u =>
        rw [hfind] at h
        have huid := (findUpload_eq_some hfind).2
        injection h with h
        rw [← h]
        show (if u.id = id then f u else u).status = UStat.uploading
        rw [if_pos huid]
    have hpend_mem : ∀ x, x ∈ s.pendingStart.erase id ↔ x ≠ id ∧ x ∈ s.pendingStart :=
      fun x => hwf.pendNodup.mem_erase_iff
    have hnotflight : id ∉ s.inFlight := hwf.pendFlight id hid
    refine ⟨?_, ?_, ?_, ?_, ?_, ?_, ?_, hwf.queueNodup, hwf.pendNodup.erase id, ?_, ?_⟩
    · -- good
      refine forall_mem_updateUpload hwf.good ?_
      intro u _ _
      simp [goodUpload, hfdef]
    · -- pendingQueued
      intro id2 hid2 u hu
      obtain ⟨hne, hmem⟩ := (hpend_mem id2).1 hid2
      rw [hfind_ne id2 hne] at hu
      exact hwf.pendingQueued id2 hmem u hu
    · -- queueQueued
      intro id2 hid2 u hu
      have hne : id2 ≠ id := by
        intro h; subst h
        exact hwf.queuePend id2 hid2 hid
      rw [hfind_ne id2 hne] at hu
      exact hwf.queueQueued id2 hid2 u hu
    · -- flightUploading
      intro id2 hid2 u hu
      rcases (mem_setAdd_iff s.inFlight id).1 hid2 with h | rfl
      · have hne : id2 ≠ id := by
          intro he; subst he; exact hnotflight h
        rw [hfind_ne id2 hne] at hu
        exact hwf.flightUploading id2 h u hu
      · exact hfind_self u hu
    · -- pendFlight
      intro id2 hid2
      obtain ⟨hne, hmem⟩ := (hpend_mem id2).1 hid2
      intro hin
      rcases (mem_setAdd_iff s.inFlight id).1 hin with h | rfl
      · exact hwf.pendFlight id2 hmem h
      · exact hne rfl
    · -- queueFlight
      intro id2 hid2 hin
      rcases (mem_setAdd_iff s.inFlight id).1 hin with h | rfl
      · exact hwf.queueFlight id2 hid2 h
      · exact hwf.queuePend id2 hid2 hid
    · -- queuePend
      intro id2 hid2 hin
      exact hwf.queuePend id2 hid2 (List.mem_of_mem_erase hin)
    · -- flightNodup
      exact UploadManager.setAdd_nodup hwf.flightNodup id
    · -- fresh
      intro id2 hid2
      rcases hid2 with h | h | h | ⟨u, hu, rfl⟩
      · exact hwf.fresh id2 (.inl h)
      · exact hwf.fresh id2 (.inr (.inl (List.mem_of_mem_erase h)))
      · rcases (mem_setAdd_iff s.inFlight id).1 h with h2 | rfl
        · exact hwf.fresh id2 (.inr (.inr (.inl h2)))
        · exact hwf.fresh id2 (.inr (.inl hid))
      · refine hwf.fresh u.id (.inr (.inr (.inr ?_)))
        rw [updateUpload_eq_map] at hu
        exact (exists_id_map (by
          intro v; by_cases h : v.id = id <;> simp [h]) (l := s.uploads)).1
          ⟨u, hu, rfl⟩
  · exact hwf

theorem wf_tick {s : HState} (hwf : WF s) (id : Nat) :
    WF (hstep s (.tick id)) := by
  simp only [hstep]
  set g : UploadStatus → UploadStatus :=
    fun u => if u.id = id ∧ u.status = .uploading then
      { u with progress := min (u.progress + 10) 90 } else u with hgdef
  have hg : ∀ u, (g u).id = u.id := by
    intro u
    simp only [hgdef]
    split <;> rfl
  have hgstat : ∀ u, (g u).status = u.status := by
    intro u
    simp only [hgdef]
    split <;> rfl
  have hfind : ∀ id2, findUpload id2 (s.uploads.map g) =
      (findUpload id2 s.uploads).map g := fun id2 => findUpload_map hg id2 s.uploads
  have hfind_stat : ∀ id2 u', findUpload id2 (s.uploads.map g) = some u' →
      ∃ u, findUpload id2 s.uploads = some u ∧ u'.status = u.status := by
    intro id2 u' h
    rw [hfind id2] at h
    cases hfind2 : findUpload id2 s.uploads with
    | none => rw [hfind2] at h; cases h
    | some u =>
      rw [hfind2] at h
      injection h with h
      exact ⟨u, rfl, by rw [← h]; exact hgstat u⟩
  refine ⟨?_, ?_, ?_, ?_, hwf.pendFlight, hwf.queueFlight, hwf.queuePend,
    hwf.queueNodup, hwf.pendNodup, hwf.flightNodup, ?_⟩
  · -- good
    intro u' hu'
    obtain ⟨u, hu, rfl⟩ := List.mem_map.1 hu'
    have hg1 := hwf.good u hu
    simp only [hgdef]
    split
    · rename_i hcond
      obtain ⟨-, -, -, -, h5⟩ := hg1
      obtain ⟨h6, h7⟩ := h5 hcond.2
      refine ⟨?_, ?_, ?_, ?_, ?_⟩
      · show (0:Int) ≤ min (u.progress + 10) 90
        omega
      · show min (u.progress + 10) 90 ≤ (100:Int)
        omega
      · intro h
        have h2 : u.status = .queued := h
        rw [hcond.2] at h2; cases h2
      · intro h
        have h2 : u.status = .completed := h
        rw [hcond.2] at h2; cases h2
      · intro _
        refine ⟨?_, ?_⟩
        · show (10:Int) ≤ min (u.progress + 10) 90
          omega
        · show min (u.progress + 10) 90 ≤ (90:Int)
          omega
    · exact hg1
  · -- pendingQueued
    intro id2 hid2 u' hu'
    obtain ⟨u, hu, hstat⟩ := hfind_stat id2 u' hu'
    rw [hstat]
    exact hwf.pendingQueued id2 hid2 u hu
  · -- queueQueued
    intro id2 hid2 u' hu'
    obtain ⟨u, hu, hstat⟩ := hfind_stat id2 u' hu'
    rw [hstat]
    exact hwf.queueQueued id2 hid2 u hu
  · -- flightUploading
    intro id2 hid2 u' hu'
    obtain ⟨u, hu, hstat⟩ := hfind_stat id2 u' hu'
    rw [hstat]
    exact hwf.flightUploading id2 hid2 u hu
  · -- fresh
    intro id2 hid2
    rcases hid2 with h | h | h | ⟨u, hu, rfl⟩
    · exact hwf.fresh id2 (.inl h)
    · exact hwf.fresh id2 (.inr (.inl h))
    · exact hwf.fresh id2 (.inr (.inr (.inl h)))
    · exact hwf.fresh u.id (.inr (.inr (.inr ((exists_id_map hg).1 ⟨u, hu, rfl⟩))))

theorem wf_settle_aux {s : HState} (hwf : WF s) (id : Nat)
    (f : UploadStatus → UploadStatus) (hf : ∀ u, (f u).id = u.id)
    (hgood : ∀ u ∈ s.uploads, goodUpload (f u))
    (hid : id ∈ s.inFlight) :
    WF { uploads := updateUpload id f s.uploads
         fileQueue := s.fileQueue
         activeSet := s.activeSet.erase id
         retryActive := s.retryActive.erase id
         pendingStart := s.pendingStart
         inFlight := s.inFlight.erase id
         nextId := s.nextId } := by
  have hfind_ne : ∀ id2, id2 ≠ id →
      findUpload id2 (updateUpload id f s.uploads) = findUpload id2 s.uploads :=
    fun id2 h => findUpload_updateUpload_ne hf h s.uploads
  refine ⟨?_, ?_, ?_, ?_, ?_, ?_, hwf.queuePend, hwf.queueNodup, hwf.pendNodup,
    hwf.flightNodup.erase id, ?_⟩
  · -- good
    exact forall_mem_updateUpload hwf.good (fun u hu _ => hgood u hu)
  · -- pendingQueued
    intro id2 hid2 u hu
    have hne : id2 ≠ id := by
      intro h; subst h
      exact hwf.pendFlight id2 hid2 hid
    rw [hfind_ne id2 hne] at hu
    exact hwf.pendingQueued id2 hid2 u hu
  · -- queueQueued
    intro id2 hid2 u hu
    have hne : id2 ≠ id := by
      intro h; subst h
      exact hwf.queueFlight id2 hid2 hid
    rw [hfind_ne id2 hne] at hu
    exact hwf.queueQueued id2 hid2 u hu
  · -- flightUploading
    intro id2 hid2 u hu
    obtain ⟨hne, hmem⟩ := hwf.flightNodup.mem_erase_iff.1 hid2
    rw [hfind_ne id2 hne] at hu
    exact hwf.flightUploading id2 hmem u hu
  · -- pendFlight
    intro id2 hid2 hin
    exact hwf.pendFlight id2 hid2 (List.mem_of_mem_erase hin)
  · -- queueFlight
    intro id2 hid2 hin
    exact hwf.queueFlight id2 hid2 (List.mem_of_mem_erase hin)
  · -- fresh
    intro id2 hid2
    rcases hid2 with h | h | h | ⟨u, hu, rfl⟩
    · exact hwf.fresh id2 (.inl h)
    · exact hwf.fresh id2 (.inr (.inl h))
    · exact hwf.fresh id2 (.inr (.inr (.inl (List.mem_of_mem_erase h))))
    · refine hwf.fresh u.id (.inr (.inr (.inr ?_)))
      rw [updateUpload_eq_map] at hu
      exact (exists_id_map (by
        intro v; by_cases h : v.id = id <;> simp [h, hf v]) (l := s.uploads)).1
        ⟨u, hu, rfl⟩

theorem wf_succeed {s : HState} (hwf : WF s) (id : Nat) (url : String) :
    WF (hstep s (.succeed id url)) := by
  simp only [hstep]
  split
  · rename_i hid
    refine wf_settle_aux hwf id _ (fun u => rfl) ?_ hid
    intro u _
    simp [goodUpload]
  · exact hwf

theorem wf_fail {s : HState} (hwf : WF s) (id : Nat) (msg : String) :
    WF (hstep s (.fail id msg)) := by
  simp only [hstep]
  split
  · rename_i hid
    refine wf_settle_aux hwf id _ (fun u => rfl) ?_ hid
    intro u hu
    obtain ⟨h1, h2, -⟩ := hwf.good u hu
    refine ⟨h1, h2, ?_, ?_, ?_⟩ <;> (intro h; simp at h)
  · exact hwf

theorem wf_retryCall {s : HState} (hwf : WF s) (id : Nat) :
    WF (hstep s (.retryCall id)) := by
  simp only [hstep]
  split
  · exact hwf
  · rename_i u hfind
    split
    · rename_i hcond
      have hErr : u.status = .error := hcond.1
      have hf : ∀ v, (retryReset v).id = v.id := fun v => rfl
      have hfind_ne : ∀ id2, id2 ≠ id →
          findUpload id2 (updateUpload id retryReset s.uploads) =
            findUpload id2 s.uploads :=
        fun id2 h => findUpload_updateUpload_ne hf h s.uploads
      have hfind_self : ∀ u', findUpload id (updateUpload id retryReset s.uploads) =
          some u' → u'.status = .queued := by
        intro u' h
        rw [findUpload_updateUpload_self hf, hfind] at h
        have huid := (findUpload_eq_some hfind).2
        injection h with h
        rw [← h]
        show (if u.id = id then retryReset u else u).status = UStat.queued
        rw [if_pos huid]
        rfl
      have hNotFlight : id ∉ s.inFlight := by
        intro hin
        have := hwf.flightUploading id hin u hfind
        rw [hErr] at this
        cases this
      have hNotQueue : id ∉ s.fileQueue := by
        intro hin
        have := hwf.queueQueued id hin u hfind
        rw [hErr] at this
        cases this
      refine ⟨?_, ?_, ?_, ?_, ?_, hwf.queueFlight, ?_, hwf.queueNodup,
        UploadManager.setAdd_nodup hwf.pendNodup id, hwf.flightNodup, ?_⟩
      · -- good
        refine forall_mem_updateUpload hwf.good ?_
        intro v _ _
        simp [goodUpload, retryReset]
      · -- pendingQueued
        intro id2 hid2 u2 hu2
        by_cases hne : id2 = id
        · subst hne
          exact hfind_self u2 hu2
        · rw [hfind_ne id2 hne] at hu2
          rcases (mem_setAdd_iff s.pendingStart id).1 hid2 with h | h
          · exact hwf.pendingQueued id2 h u2 hu2
          · exact absurd h hne
      · -- queueQueued
        intro id2 hid2 u2 hu2
        have hne : id2 ≠ id := by
          intro h; subst h; exact hNotQueue hid2
        rw [hfind_ne id2 hne] at hu2
        exact hwf.queueQueued id2 hid2 u2 hu2
      · -- flightUploading
        intro id2 hid2 u2 hu2
        have hne : id2 ≠ id := by
          intro h; subst h; exact hNotFlight hid2
        rw [hfind_ne id2 hne] at hu2
        exact hwf.flightUploading id2 hid2 u2 hu2
      · -- pendFlight
        intro id2 hid2 hin
        rcases (mem_setAdd_iff s.pendingStart id).1 hid2 with h | rfl
        · exact hwf.pendFlight id2 h hin
        · exact hNotFlight hin
      · -- queuePend
        intro id2 hid2 hin
        rcases (mem_setAdd_iff s.pendingStart id).1 hin with h | rfl
        · exact hwf.queuePend id2 hid2 h
        · exact hNotQueue hid2
      · -- fresh
        intro id2 hid2
        rcases hid2 with h | h | h | ⟨v, hv, rfl⟩
        · exact hwf.fresh id2 (.inl h)
        · rcases (mem_setAdd_iff s.pendingStart id).1 h with h2 | rfl
          · exact hwf.fresh id2 (.inr (.inl h2))
          · exact hwf.fresh id2 (.inr (.inr (.inr
              ⟨u, (findUpload_eq_some hfind).1, (findUpload_eq_some hfind).2⟩)))
        · exact hwf.fresh id2 (.inr (.inr (.inl h)))
        · refine hwf.fresh v.id (.inr (.inr (.inr ?_)))
          rw [updateUpload_eq_map] at hv
          exact (exists_id_map (by
            intro w; by_cases h : w.id = id <;> simp [h, retryReset]) (l := s.uploads)).1
            ⟨v, hv, rfl⟩
    · exact hwf

/-- WF is preserved by every hook event. -/
theorem wf_hstep {s : HState} (hwf : WF s) (e : HEvent) : WF (hstep s e) := by
  cases e with
  | uploadFiles names pid => exact wf_uploadFiles hwf names pid
  | admitOne => exact wf_admitOne hwf
  | startUpload id => exact wf_startUpload hwf id
  | tick id => exact wf_tick hwf id
  | succeed id url => exact wf_succeed hwf id url
  | fail id msg => exact wf_fail hwf id msg
  | retryCall id => exact wf_retryCall hwf id

/-- Every state reachable from the empty hook state is well-formed. -/
theorem wf_hrun (es : List HEvent) : WF (hrun hInit es) := by
  suffices h : ∀ s, WF s → WF (hrun s es) from h hInit wf_hInit
  induction es with
  | nil => exact fun s h => h
  | cons e es ih => exact fun s h => ih (hstep s e) (wf_hstep h e)

/-- While a task stays in the `uploading` state across one hook event, its
tracked progress does not decrease. -/
theorem progress_mono_step {s : HState} (hwf : WF s) (e : HEvent) {id : Nat}
    {u u' : UploadStatus}
    (hu : findUpload id s.uploads = some u)
    (hu' : findUpload id (hstep s e).uploads = some u')
    (h1 : u.status = .uploading) (h2 : u'.status = .uploading) :
    u.progress ≤ u'.progress := by
  have hsame : findUpload id s.uploads = some u' → u.progress ≤ u'.progress := by
    intro h
    rw [hu] at h
    injection h with h
    rw [h]
  cases e with
  | uploadFiles names pid =>
    simp only [hstep] at hu'
    split at hu'
    · have hmem := (findUpload_eq_some hu').1
      obtain ⟨p, hp, hpe⟩ := List.mem_map.1 hmem
      rw [← hpe] at h2
      simp at h2
    · exact hsame hu'
  | admitOne =>
    simp only [hstep] at hu'
    split at hu'
    · exact hsame hu'
    · split at hu' <;> exact hsame hu'
  | startUpload sid =>
    simp only [hstep] at hu'
    split at hu'
    · rename_i hpend
      dsimp only at hu'
      by_cases hne : id = sid
      · subst hne
        have := hwf.pendingQueued id hpend u hu
        rw [this] at h1
        cases h1
      · rw [findUpload_updateUpload_ne
          (f := fun v => { v with status := UStat.uploading, progress := 10 })
          (fun v => rfl) hne] at hu'
        exact hsame hu'
    · exact hsame hu'
  | tick tid =>
    simp only [hstep] at hu'
    set g : UploadStatus → UploadStatus := fun v =>
      if v.id = tid ∧ v.status = UStat.uploading then
        { v with progress := min (v.progress + 10) 90 } else v with hgdef
    have hg : ∀ v, (g v).id = v.id := by
      intro v
      simp only [hgdef]
      split <;> rfl
    rw [findUpload_map hg, hu] at hu'
    injection hu' with hu'
    rw [← hu']
    simp only [hgdef]
    split
    · show u.progress ≤ min (u.progress + 10) 90
      have hb := (hwf.good u (findUpload_eq_some hu).1).2.2.2.2 h1
      omega
    · exact le_refl _
  | succeed sid url =>
    simp only [hstep] at hu'
    split at hu'
    · dsimp only at hu'
      by_cases hne : id = sid
      · subst hne
        rw [findUpload_updateUpload_self
          (f := fun v => { v with
            progress := 100
            status := UStat.completed
            url := some url }) (fun v => rfl), hu] at hu'
        have huid := (findUpload_eq_some hu).2
        injection hu' with hu'
        rw [← hu'] at h2
        simp [huid] at h2
      · rw [findUpload_updateUpload_ne
          (f := fun v => { v with
            progress := 100
            status := UStat.completed
            url := some url }) (fun v => rfl) hne] at hu'
        exact hsame hu'
    · exact hsame hu'
  | fail sid msg =>
    simp only [hstep] at hu'
    split at hu'
    · dsimp only at hu'
      by_cases hne : id = sid
      · subst hne
        rw [findUpload_updateUpload_self
          (f := fun v => { v with status := UStat.error, err := some msg })
          (fun v => rfl), hu] at hu'
        have huid := (findUpload_eq_some hu).2
        injection hu' with hu'
        rw [← hu'] at h2
        simp [huid] at h2
      · rw [findUpload_updateUpload_ne
          (f := fun v => { v with status := UStat.error, err := some msg })
          (fun v => rfl) hne] at hu'
        exact hsame hu'
    · exact hsame hu'
  | retryCall rid =>
    simp only [hstep] at hu'
    split at hu'
    · exact hsame hu'
    · rename_i w hfindw
      split at hu'
      · rename_i hcond
        dsimp only at hu'
        by_cases hne : id = rid
        · subst hne
          rw [hfindw] at hu
          injection hu with hu
          have := hcond.1
          rw [hu, h1] at this
          cases this
        · rw [findUpload_updateUpload_ne (f := retryReset)
            (fun v => rfl) hne] at hu'
          exact hsame hu'
      · exact hsame hu'

end hookUploadManager

namespace UploadManager

theorem simTicks_nonneg {p : ℚ} (hp : 0 ≤ p) {ds : List ℚ}
    (hds : ∀ d ∈ ds, 0 ≤ d) : ∀ x ∈ simTicks p ds, p ≤ x := by
  induction ds generalizing p with
  | nil => intro x hx; cases hx
  | cons d ds ih =>
    intro x hx
    have hd := hds d (List.mem_cons_self d ds)
    simp only [simTicks] at hx
    split at hx
    · rcases List.mem_cons.1 hx with rfl | hx2
      · linarith
      · have := ih (p := p + d) (by linarith)
          (fun e he => hds e (List.mem_cons_of_mem d he)) x hx2
        linarith
    · exact ih hp (fun e he => hds e (List.mem_cons_of_mem d he)) x hx

theorem simTicks_lt_100 {p : ℚ} {ds : List ℚ}
    (hds : ∀ d ∈ ds, d < 10) : ∀ x ∈ simTicks p ds, x < 100 := by
  induction ds generalizing p with
  | nil => intro x hx; cases hx
  | cons d ds ih =>
    intro x hx
    have hd := hds d (List.mem_cons_self d ds)
    simp only [simTicks] at hx
    split at hx
    · rename_i hlt
      rcases List.mem_cons.1 hx with rfl | hx2
      · linarith
      · exact ih (fun e he => hds e (List.mem_cons_of_mem d he)) x hx2
    · exact ih (fun e he => hds e (List.mem_cons_of_mem d he)) x hx

theorem simTicks_chain {p : ℚ} (hp : 0 ≤ p) {ds : List ℚ}
    (hds : ∀ d ∈ ds, 0 ≤ d) :
    List.Chain' (· ≤ ·) (simTicks p ds) := by
  induction ds generalizing p with
  | nil => exact List.chain'_nil
  | cons d ds ih =>
    have hd := hds d (List.mem_cons_self d ds)
    simp only [simTicks]
    split
    · refine List.chain'_cons'.2 ⟨?_, ih (p := p + d) (by linarith)
        (fun e he => hds e (List.mem_cons_of_mem d he))⟩
      intro b hb
      refine simTicks_nonneg (p := p + d) (by linarith)
        (fun e he => hds e (List.mem_cons_of_mem d he)) b ?_
      exact List.mem_of_mem_head? hb
    · exact ih hp (fun e he => hds e (List.mem_cons_of_mem d he))

theorem processQueue_active_congr {s1 s2 : State} (hq : s1.queue = s2.queue)
    (ha : s1.active = s2.active) (hm : s1.maxConcurrent = s2.maxConcurrent) :
    (processQueue s1).active = (processQueue s2).active := by
  unfold processQueue
  rw [hq, ha, hm]
  split <;> first | exact ha | rfl

theorem processQueue_fifo (s : State) :
    ∃ k, (processQueue s).queue = s.queue.drop k ∧
      ∀ t ∈ s.queue.take k, t.id ∈ (processQueue s).active := by
  unfold processQueue
  split
  · exact ⟨0, by simp, by simp⟩
  · refine ⟨(s.maxConcurrent - (s.active.length : Int)).toNat, rfl, ?_⟩
    intro t ht
    rw [mem_foldl_setAdd_iff]
    exact .inr ⟨t, ht, rfl⟩

/-- Every scheduler step only removes a prefix of the queue (admitting those
tasks, in order, to the active set) and appends newly submitted tasks at the
tail: admission is FIFO. -/
theorem step_fifo (s : State) (e : Event) :
    ∃ app k, (step s e).queue = (s.queue ++ app).drop k ∧
      ∀ t ∈ (s.queue ++ app).take k, t.id ∈ (step s e).active := by
  cases e with
  | submit files pid =>
    simp only [step, addToQueue]
    obtain ⟨k, h1, h2⟩ := processQueue_fifo { s with
      queue := s.queue ++ (files.zip (List.range' s.nextId files.length)).map
        (fun p => { id := p.2, file := p.1, propertyId := pid : Task })
      nextId := s.nextId + files.length }
    exact ⟨_, k, h1, h2⟩
  | finish id ok =>
    simp only [step]
    split
    · simp only [finishUpload]
      obtain ⟨k, h1, h2⟩ := processQueue_fifo { s with
        active := s.active.erase id
        callbackLog := s.callbackLog ++ [(id, ok)] }
      exact ⟨[], k, by simpa using h1, by simpa using h2⟩
    · exact ⟨[], 0, by simp, by simp⟩

end UploadManager

open UploadManager hookUploadManager viewHook apiRoute

/-- C1 (amended): in the `UploadManager` scheduler every reachable state —
including states reached by submitting new batches while transfers are in
flight, all sharing the one gate — has at most `maxConcurrent` active
uploads, and the configured limit is at least 1.  The claim as stated is
false for the repository's retry path (part_008), which starts the retried
transfer outside the gate; see the counterexample. -/
theorem c1_active_le_limit (env : Env) (config : Option Config)
    (s0 : UploadManager.State) (h : create env config = .ok s0)
    (es : List UploadManager.Event) :
    ((run s0 es).active.length : Int) ≤ (run s0 es).maxConcurrent ∧
    1 ≤ (run s0 es).maxConcurrent := by
  obtain ⟨ha, hq, hmc⟩ := create_ok_inv h
  have hb := configMaxConc_bounds config
  constructor
  · refine run_active_le es ?_
    rw [ha, hmc]
    simp only [List.length_nil, Nat.cast_zero]
    omega
  · rw [run_maxConcurrent, hmc]
    omega

/-- Witness for C1: a freshly constructed manager receiving one 4-file batch. -/
theorem c1_active_le_limit_witness :
    ((run s0ok tr4).active.length : Int) ≤ (run s0ok tr4).maxConcurrent ∧
    1 ≤ (run s0ok tr4).maxConcurrent :=
  c1_active_le_limit envOK none s0ok rfl tr4

/-- C1 counterexample: in the part_008 hook (limit fixed at 3), after three
batch tasks start uploading and one fails, admitting the fourth and then
retrying the failed one yields four simultaneously `uploading` tasks — the
retried transfer is started outside the gate. -/
theorem c1_counterexample :
    maxConcurrentUploads = 3 ∧ uploadingCount (hrun hInit c1Trace) = 4 :=
  ⟨rfl, by decide⟩

/-- C2 (amended): no type check happens at scheduler submission —
`addToQueue` creates one task and returns one id for every file, image or
not.  The image predicate is enforced elsewhere: the POST route silently
skips files whose declared type does not start with `image/` (they are
never uploaded and contribute no locator, with no per-file error), and the
dropzone filters non-image or oversized files before submission. -/
theorem c2_type_filter (domain pid pid2 : String)
    (l : List (FileInfo × String)) (files drop2 existing : List FileInfo)
    (s : UploadManager.State) :
    ((addToQueue files pid2 s).1.length = files.length) ∧
    (postLoop domain pid l = (l.filter (fun p => isImageType p.1.ftype)).map
      (fun p => uploadImageUrl domain pid p.2 p.1.ftype)) ∧
    (∀ f ∈ handleDropZoneDrop drop2 existing, f ∈ existing ∨
      (isImageType f.ftype = true ∧ f.size ≤ 10 * 1024 * 1024)) := by
  refine ⟨?_, ?_, ?_⟩
  · simp [addToQueue]
  · induction l with
    | nil => rfl
    | cons p rest ih =>
      obtain ⟨f, nm⟩ := p
      by_cases h : isImageType f.ftype <;>
        simp [postLoop, h, ih]
  · intro f hf
    rcases List.mem_append.1 hf with h | h
    · exact .inl h
    · obtain ⟨-, h2⟩ := List.mem_filter.1 h
      simp only [Bool.and_eq_true, decide_eq_true_eq] at h2
      exact .inr h2

/-- Witness for C2 (amended): concrete image and non-image submissions. -/
theorem c2_type_filter_witness :
    (addToQueue [badFile] "p1" s0ok).1.length = 1 ∧
    postLoop "cdn.example" "p" [(badFile, "n1"), (mkImg "a", "n2")] =
      ["https://cdn.example/p/n2.png"] ∧
    (badFile ∈ ([badFile] : List FileInfo) ∨
      (isImageType badFile.ftype = true ∧ badFile.size ≤ 10 * 1024 * 1024)) := by
  refine ⟨(c2_type_filter "cdn.example" "p" "p1" [] [badFile] [] [] s0ok).1, ?_, ?_⟩
  · rw [(c2_type_filter "cdn.example" "p" "p1" [(badFile, "n1"), (mkImg "a", "n2")]
      [] [] [] s0ok).2.1]
    decide
  · exact (c2_type_filter "cdn.example" "p" "p1" [] [] [mkImg "a"] [badFile]
      s0ok).2.2 badFile (by decide)

/-- C2 counterexample: a `text/plain` file is not an image type, yet
`addToQueue` returns a task id for it and the task is tracked by the
scheduler — it is not rejected at submission. -/
theorem c2_counterexample :
    isImageType badFile.ftype = false ∧
    (addToQueue [badFile] "p1" s0ok).1 = [0] ∧
    0 ∈ trackedIds (addToQueue [badFile] "p1" s0ok).2 :=
  ⟨by decide, by decide, by decide⟩

/-- C3 (amended): admission through the scheduler queue is FIFO — every step
removes only a prefix of the queue (admitting exactly those tasks to the
active set) and appends new submissions at the tail.  The claim as stated is
false for retried tasks: the part_008 retry path never re-appends the task
to any queue, starting it immediately ahead of earlier-queued tasks; see the
counterexample. -/
theorem c3_fifo (s : UploadManager.State) (e : UploadManager.Event) :
    ∃ app k, (UploadManager.step s e).queue = (s.queue ++ app).drop k ∧
      ∀ t ∈ (s.queue ++ app).take k, t.id ∈ (UploadManager.step s e).active :=
  step_fifo s e

/-- Witness for C3: the FIFO step shape at a concrete submission. -/
theorem c3_fifo_witness :
    ∃ app k, (UploadManager.step s0ok (.submit [mkImg "a"] "p")).queue =
      (s0ok.queue ++ app).drop k ∧
      ∀ t ∈ (s0ok.queue ++ app).take k, t.id ∈
        (UploadManager.step s0ok (.submit [mkImg "a"] "p")).active :=
  c3_fifo s0ok (.submit [mkImg "a"] "p")

/-- C3 counterexample: in the part_008 hook, after a 5-file batch admits
tasks 0–2 and task 0 fails, retrying task 0 starts it `uploading`
immediately while tasks 3 and 4 — queued strictly before the retry — are
still waiting, and the retried task is never re-appended to the file
queue. -/
theorem c3_counterexample :
    (findUpload 0 (hrun hInit c3Trace).uploads).map (fun u => u.status) =
      some .uploading ∧
    (findUpload 3 (hrun hInit c3Trace).uploads).map (fun u => u.status) =
      some .queued ∧
    (hrun hInit c3Trace).fileQueue = [3, 4] ∧
    0 ∉ (hrun hInit c3Trace).fileQueue := by
  refine ⟨by decide, by decide, by decide, by decide⟩

/-- C4: every acquired slot is released exactly once by the `.finally`
cleanup, with the same effect on the gate whether the transfer succeeded or
failed; once the queue is empty, settling all in-flight transfers returns
the active count to 0; and settling any transfer (in particular a failed
one) while tasks are queued admits the head task — a failed task never
blocks later admissions. -/
theorem c4_slot_release (env : Env) (config : Option Config)
    (s0 : UploadManager.State) (h : create env config = .ok s0)
    (es : List UploadManager.Event) :
    (∀ id ok1 ok2, (UploadManager.step (run s0 es) (.finish id ok1)).active =
      (UploadManager.step (run s0 es) (.finish id ok2)).active) ∧
    (∀ ok, (run s0 es).queue = [] →
      (run (run s0 es) ((run s0 es).active.map
        (fun id => UploadManager.Event.finish id ok))).active = []) ∧
    (∀ id ok t rest, (run s0 es).queue = t :: rest → id ∈ (run s0 es).active →
      t.id ∈ (UploadManager.step (run s0 es) (.finish id ok)).active) := by
  obtain ⟨ha, hq, hmc⟩ := create_ok_inv h
  have hb := configMaxConc_bounds config
  have hle : ((run s0 es).active.length : Int) ≤ (run s0 es).maxConcurrent := by
    refine run_active_le es ?_
    rw [ha, hmc]
    simp only [List.length_nil, Nat.cast_zero]
    omega
  have hnd : (run s0 es).active.Nodup := by
    refine run_active_nodup es ?_
    rw [ha]
    exact List.nodup_nil
  refine ⟨?_, ?_, ?_⟩
  · intro id ok1 ok2
    simp only [UploadManager.step]
    split
    · simp only [finishUpload]
      exact processQueue_active_congr rfl rfl rfl
    · rfl
  · intro ok hq2
    exact finishAll_active_nil ok hq2 hnd
  · intro id ok t rest hq2 hm
    exact finish_admits_head ok hq2 hm hle

/-- Witness for C4: on a fresh manager with a 4-file batch (gate full, one
task queued), failing transfer 0 admits the queued task 3; and with a
1-file batch (queue empty), settling every in-flight transfer empties the
active set. -/
theorem c4_slot_release_witness :
    task3.id ∈ (UploadManager.step (run s0ok tr4)
      (.finish 0 false)).active ∧
    (run (run s0ok tr1) ((run s0ok tr1).active.map
      (fun id => UploadManager.Event.finish id false))).active = [] :=
  ⟨(c4_slot_release envOK none s0ok rfl tr4).2.2 0 false task3 []
      (by decide) (by decide),
   (c4_slot_release envOK none s0ok rfl tr1).2.1 false (by decide)⟩

/-- C5: `addToQueue` creates one task per file — the returned ids are
`files.length` fresh uuids, pairwise distinct, and after the call the
tracked ids are exactly the previously tracked ids plus the returned ones;
the returned ids depend only on the uuid supply, not on queue contents or
the fate of any transfer (fire-and-continue); and in the hook model a
submitted batch creates one status per file, each initially `queued` with
progress 0. -/
theorem c5_submitBatch (files : List FileInfo) (pid : String)
    (s t : UploadManager.State) (names : List String) (hs : HState) :
    ((addToQueue files pid s).1 = List.range' s.nextId files.length) ∧
    ((addToQueue files pid s).1.length = files.length) ∧
    ((addToQueue files pid s).1.Nodup) ∧
    (∀ x, x ∈ trackedIds (addToQueue files pid s).2 ↔
      (x ∈ trackedIds s ∨ x ∈ (addToQueue files pid s).1)) ∧
    (s.nextId = t.nextId →
      (addToQueue files pid s).1 = (addToQueue files pid t).1) ∧
    (hs.fileQueue = [] → hs.activeSet = [] →
      ((hstep hs (.uploadFiles names pid)).uploads.length = names.length ∧
        ∀ u ∈ (hstep hs (.uploadFiles names pid)).uploads,
          u.status = .queued ∧ u.progress = 0)) := by
  refine ⟨rfl, by simp [addToQueue], ?_, mem_trackedIds_addToQueue files pid s,
    ?_, ?_⟩
  · show (List.range' s.nextId files.length).Nodup
    exact List.nodup_range' _ _
  · intro h
    show List.range' s.nextId files.length = List.range' t.nextId files.length
    rw [h]
  · intro h1 h2
    simp only [hstep]
    rw [if_pos ⟨h1, h2⟩]
    constructor
    · simp
    · intro u hu
      obtain ⟨p, hp, rfl⟩ := List.mem_map.1 hu
      exact ⟨rfl, rfl⟩

/-- Witness for C5: two concrete managers sharing a uuid supply return the
same ids, and a two-file hook batch yields two queued statuses with
progress 0. -/
theorem c5_submitBatch_witness :
    ((addToQueue [mkImg "a", mkImg "b"] "p" s0ok).1 =
      (addToQueue [mkImg "a", mkImg "b"] "p" s9NoBucket).1) ∧
    ((hstep hInit (.uploadFiles ["a", "b"] "p")).uploads.length = 2 ∧
      ∀ u ∈ (hstep hInit (.uploadFiles ["a", "b"] "p")).uploads,
        u.status = .queued ∧ u.progress = 0) :=
  ⟨(c5_submitBatch [mkImg "a", mkImg "b"] "p" s0ok s9NoBucket [] hInit).2.2.2.2.1
      rfl,
   (c5_submitBatch [] "p" s0ok s0ok ["a", "b"] hInit).2.2.2.2.2 rfl rfl⟩

/-- C6: `retryUpload` on an unknown id or on a task whose status is not
`error` returns without mutating any state; on an `error` task (whose
stored file and property id are present) it resets exactly that task to
`queued` with progress 0 and no error, leaving every other task
unchanged. -/
theorem c6_retry (s : HState) (id : Nat) :
    (findUpload id s.uploads = none → hstep s (.retryCall id) = s) ∧
    (∀ u, findUpload id s.uploads = some u → u.status ≠ .error →
      hstep s (.retryCall id) = s) ∧
    (∀ u, findUpload id s.uploads = some u → u.status = .error →
      u.hasFile = true → truthy u.propertyId = true →
      ((hstep s (.retryCall id)).uploads = updateUpload id retryReset s.uploads ∧
       ∀ u', findUpload id (hstep s (.retryCall id)).uploads = some u' →
         u'.status = .queued ∧ u'.progress = 0 ∧ u'.err = none)) := by
  refine ⟨?_, ?_, ?_⟩
  · intro h
    simp [hstep, h]
  · intro u hu hne
    simp only [hstep, hu]
    rw [if_neg]
    rintro ⟨h1, -⟩
    exact hne h1
  · intro u hu herr hfile hpid
    simp only [hstep, hu]
    rw [if_pos ⟨herr, hfile, hpid⟩]
    refine ⟨rfl, ?_⟩
    intro u' hu'
    dsimp only at hu'
    rw [findUpload_updateUpload_self (f := retryReset) (fun v => rfl), hu] at hu'
    injection hu' with hu'
    have huid := (findUpload_eq_some hu).2
    rw [← hu']
    show (if u.id = id then retryReset u else u).status = UStat.queued ∧
      (if u.id = id then retryReset u else u).progress = 0 ∧
      (if u.id = id then retryReset u else u).err = none
    rw [if_pos huid]
    exact ⟨rfl, rfl, rfl⟩

/-- Witness for C6: in a concrete state, retrying an unknown id and a
completed task changes nothing, and retrying the failed task 0 resets it. -/
theorem c6_retry_witness :
    (hstep hsRetry (.retryCall 9) = hsRetry) ∧
    (hstep hsRetry (.retryCall 2) = hsRetry) ∧
    ((hstep hsRetry (.retryCall 0)).uploads =
      updateUpload 0 retryReset hsRetry.uploads) :=
  ⟨(c6_retry hsRetry 9).1 (by decide),
   (c6_retry hsRetry 2).2.1 u2c (by decide) (by decide),
   ((c6_retry hsRetry 0).2.2 u0e (by decide) (by decide) (by decide)
      (by decide)).1⟩

/-- C8: `clearUploads` empties the tracked table (whatever the statuses of
its tasks) and the manager backlog and resets the uploading flag, while the
manager's active set — the in-flight transfers — is untouched; after the
clear, a completion or failure callback of a still-running transfer no
longer updates any tracked task. -/
theorem c8_clear (st : AppState) (id : Nat) (url msg : String) :
    (clearUploads st).uploads = [] ∧
    (clearUploads st).mgr.queue = [] ∧
    (clearUploads st).mgr.active = st.mgr.active ∧
    (clearUploads st).isUploading = false ∧
    (onCompleteUpdate id url (clearUploads st)).uploads = [] ∧
    (onErrorUpdate id msg (clearUploads st)).uploads = [] :=
  ⟨rfl, rfl, rfl, rfl, rfl, rfl⟩

/-- C7 (amended): in the hook model every reachable state keeps each task's
progress an integer percentage in [0,100] — 0 when `queued`, 100 when
`completed`, within [10,90] while `uploading` — and one further event never
decreases the progress of a task that stays `uploading`; the lib manager's
simulated progress callbacks emit non-decreasing values in [0,100], ending
with 100 on success and staying strictly below 100 on failure.  The claim
as stated is false for the lib manager: its emitted values need not be
integers, and on failure the interval is never cleared, so emissions
continue after the task has failed; see the counterexample. -/
theorem c7_progress (es : List HEvent) (e : HEvent) (draws pre post : List ℚ) :
    (∀ u ∈ (hrun hInit es).uploads, goodUpload u) ∧
    (∀ id u u', findUpload id (hrun hInit es).uploads = some u →
      findUpload id (hstep (hrun hInit es) e).uploads = some u' →
      u.status = .uploading → u'.status = .uploading →
      u.progress ≤ u'.progress) ∧
    ((∀ d ∈ draws, 0 ≤ d ∧ d < 10) →
      (List.Chain' (· ≤ ·) (uploadFileEmitsSuccess draws) ∧
       ∀ x ∈ uploadFileEmitsSuccess draws, 0 ≤ x ∧ x ≤ 100)) ∧
    ((∀ d ∈ pre ++ post, 0 ≤ d ∧ d < 10) →
      (List.Chain' (· ≤ ·) (uploadFileEmitsFailure pre post) ∧
       ∀ x ∈ uploadFileEmitsFailure pre post, 0 ≤ x ∧ x < 100)) := by
  refine ⟨(wf_hrun es).good, ?_, ?_, ?_⟩
  · intro id u u' hu hu' h1 h2
    exact progress_mono_step (wf_hrun es) e hu hu' h1 h2
  · intro hd
    have hd0 : ∀ d ∈ draws, (0:ℚ) ≤ d := fun d h => (hd d h).1
    have hd10 : ∀ d ∈ draws, d < (10:ℚ) := fun d h => (hd d h).2
    constructor
    · unfold uploadFileEmitsSuccess
      rw [List.chain'_append]
      refine ⟨simTicks_chain le_rfl hd0, List.chain'_singleton 100, ?_⟩
      intro x hx y hy
      have hx2 : x ∈ simTicks 0 draws := by
        obtain ⟨hne, hxe⟩ := List.mem_getLast?_eq_getLast hx
        rw [hxe]
        exact List.getLast_mem hne
      have := simTicks_lt_100 hd10 x hx2
      have hy2 : y = 100 := by
        cases hy
        rfl
      rw [hy2]
      linarith
    · intro x hx
      unfold uploadFileEmitsSuccess at hx
      rcases List.mem_append.1 hx with h | h
      · exact ⟨simTicks_nonneg le_rfl hd0 x h,
          le_of_lt (simTicks_lt_100 hd10 x h)⟩
      · have : x = 100 := by
          cases h with
          | head => rfl
          | tail _ h2 => cases h2
        rw [this]
        norm_num
  · intro hd
    have hd0 : ∀ d ∈ pre ++ post, (0:ℚ) ≤ d := fun d h => (hd d h).1
    have hd10 : ∀ d ∈ pre ++ post, d < (10:ℚ) := fun d h => (hd d h).2
    exact ⟨simTicks_chain le_rfl hd0,
      fun x hx => ⟨simTicks_nonneg le_rfl hd0 x hx,
        simTicks_lt_100 hd10 x hx⟩⟩

/-- Witness for C7: the concrete state of `es7` is well formed, a tick
raises progress from 10 to 20 while staying `uploading`, and the emissions
for draws 1, 2 are monotone and within bounds. -/
theorem c7_progress_witness :
    goodUpload u7a ∧
    u7a.progress ≤ u7b.progress ∧
    (List.Chain' (· ≤ ·) (uploadFileEmitsSuccess [1, 2]) ∧
      ∀ x ∈ uploadFileEmitsSuccess [1, 2], 0 ≤ x ∧ x ≤ 100) :=
  ⟨(c7_progress es7 (.tick 0) [] [] []).1 u7a (by decide),
   (c7_progress es7 (.tick 0) [] [] []).2.1 0 u7a u7b (by decide) (by decide)
     rfl rfl,
   (c7_progress es7 (.tick 0) [1, 2] [] []).2.2.1 (by norm_num)⟩

/-- C7 counterexample: with the failure path of `uploadFile` and draw 5/2,
the first emitted progress value is 5/2, which is not an integer; and
because `clearInterval` is skipped in the catch path, a further emission
(25/2) happens after the task has already been reported failed. -/
theorem c7_counterexample :
    uploadFileEmitsFailure [5/2] [10] = [5/2, 25/2] ∧
    (¬ ∃ n : ℤ, ((5 : ℚ)/2) = (n : ℚ)) ∧
    emissionsAfterFailure [5/2] [10] = [25/2] := by
  refine ⟨by norm_num [uploadFileEmitsFailure, simTicks], ?_,
    by norm_num [emissionsAfterFailure, uploadFileEmitsFailure, simTicks]⟩
  rintro ⟨n, hn⟩
  have h5 : (5 : ℚ) = 2 * (n : ℚ) := by
    rw [← hn]
    norm_num
  have h5z : (5 : ℤ) = 2 * n := by exact_mod_cast h5
  omega

/-- C9 (amended): `UploadManager` construction fails (throws) precisely when
the R2 access key id or secret access key is missing or empty; missing
destination settings — bucket name, account id, region, public domain — do
not fail construction, they are silently defaulted. -/
theorem c9_create (env : Env) (config : Option Config) :
    createSucceeds env config =
      (truthy env.accessKeyId && truthy env.secretAccessKey) := by
  unfold createSucceeds create
  cases h : (truthy env.accessKeyId && truthy env.secretAccessKey) <;> simp [h]

/-- C9 counterexample: with credentials present but the destination bucket
name unset, construction succeeds — the bucket silently defaults to the
empty string — rather than failing as the claim requires. -/
theorem c9_counterexample :
    envNoBucket.bucketName = none ∧
    create envNoBucket none = .ok s9NoBucket ∧
    s9NoBucket.bucketName = "" :=
  ⟨rfl, rfl, rfl⟩

/-- C10: the constructor clamps a supplied concurrency limit into [1,10]
(below 1 becomes 1, above 10 becomes 10, omitted stays the default 3), and
`updateConfig` applies the same clamp, so 1 ≤ maxConcurrent ≤ 10 holds
after every configuration operation. -/
theorem c10_clamp (env : Env) (config : Option Config) (cfg : Config)
    (s : UploadManager.State) (v : Int) :
    (v < 1 → clampConc v = 1) ∧
    (10 < v → clampConc v = 10) ∧
    (1 ≤ clampConc v ∧ clampConc v ≤ 10) ∧
    (configMaxConc none = 3) ∧
    (cfg.maxConcurrent = none → configMaxConc (some cfg) = 3) ∧
    (∀ s0, create env config = .ok s0 →
      1 ≤ s0.maxConcurrent ∧ s0.maxConcurrent ≤ 10) ∧
    (1 ≤ s.maxConcurrent → s.maxConcurrent ≤ 10 →
      1 ≤ (updateConfig cfg s).maxConcurrent ∧
        (updateConfig cfg s).maxConcurrent ≤ 10) := by
  have hb : ∀ w : Int, 1 ≤ clampConc w ∧ clampConc w ≤ 10 := by
    intro w
    unfold clampConc
    omega
  refine ⟨?_, ?_, hb v, rfl, ?_, ?_, ?_⟩
  · intro h
    unfold clampConc
    omega
  · intro h
    unfold clampConc
    omega
  · intro h
    simp [configMaxConc, h]
  · intro s0 h0
    have h1 := (create_ok_inv h0).2.2
    have h2 := configMaxConc_bounds config
    omega
  · intro h1 h2
    unfold updateConfig
    rcases hmc : cfg.maxConcurrent with _ | w <;>
      rcases hbl : cfg.baseLocation with _ | b <;>
        simp only [hmc, hbl] <;>
        first
          | exact ⟨h1, h2⟩
          | exact hb w

/-- Witness for C10: the clamp at 0 and 11, the default on a fresh state,
and an update with an out-of-range limit. -/
theorem c10_clamp_witness :
    clampConc 0 = 1 ∧ clampConc 11 = 10 ∧
    (1 ≤ s0ok.maxConcurrent ∧ s0ok.maxConcurrent ≤ 10) ∧
    (1 ≤ (updateConfig { maxConcurrent := some 99 } s0ok).maxConcurrent ∧
      (updateConfig { maxConcurrent := some 99 } s0ok).maxConcurrent ≤ 10) :=
  ⟨(c10_clamp envOK none {} s0ok 0).1 (by decide),
   (c10_clamp envOK none {} s0ok 11).2.1 (by decide),
   (c10_clamp envOK none {} s0ok 0).2.2.2.2.2.1 s0ok rfl,
   (c10_clamp envOK none { maxConcurrent := some 99 } s0ok 0).2.2.2.2.2.2
     (by decide) (by decide)⟩
